import Mathlib

/-!
# Verification of `slicenator` (`src/lib.rs`)

Shallow embedding of the two public functions of the repository:

* `mul_slice` — element-wise product of two slices, truncated to the
  shorter length (`src/lib.rs` lines 25–33);
* `dot_slice` — dot product of two slices, truncated to the shorter
  length (`src/lib.rs` lines 53–64).

Both Rust functions compute `len = if a.len() <= b.len() { a.len() } else
{ b.len() }`, then run `for i in 0..len { v.push(a[i] * b[i]); }`;
`dot_slice` additionally returns `v.iter().sum()`.

Slices become `List T`; Rust indexing `a[i]`, which panics out of bounds,
becomes the `Option`-valued `a[i]?`, so a function returns `none` exactly
when the Rust code would panic.  The generic bounds `T: Mul<Output = T> +
Copy` become the `Mul T` type class (copying is implicit in a pure
language); the `Sum` bound of `dot_slice` becomes `Add T` and `Zero T`,
and `v.iter().sum()` becomes a left fold of `+` starting from `0`, which
is how Rust's `Sum` is implemented for the numeric types.
-/

namespace Slicenator

/-- The length computation shared by both functions:
`let len = if a.len() <= b.len() { a.len() } else { b.len() };`. -/
def rustLen {T : Type} (a b : List T) : Nat :=
  if a.length ≤ b.length then a.length else b.length

/-- The loop of `mul_slice`: `for i in 0..n { v.push(a[i] * b[i]); }`
starting from the empty vector.  `forPush a b n` is the state of `v`
after `n` iterations; an out-of-bounds access (a Rust panic) is `none`. -/
def forPush {T : Type} [Mul T] (a b : List T) : Nat → Option (List T)
  | 0 => some []
  | n + 1 => do
    let v ← forPush a b n
    let x ← a[n]?
    let y ← b[n]?
    pure (v ++ [x * y])

/-- `mul_slice` (`src/lib.rs:25-33`). -/
def mul_slice {T : Type} [Mul T] (a b : List T) : Option (List T) :=
  forPush a b (rustLen a b)

/-- The loop of `dot_slice`, a textual copy of the loop of `mul_slice`,
exactly as the Rust source duplicates it. -/
def forPushDot {T : Type} [Mul T] (a b : List T) : Nat → Option (List T)
  | 0 => some []
  | n + 1 => do
    let v ← forPushDot a b n
    let x ← a[n]?
    let y ← b[n]?
    pure (v ++ [x * y])

/-- `v.iter().sum()`: left-to-right accumulation with `+` from `0`. -/
def listSum {T : Type} [Add T] [Zero T] (l : List T) : T :=
  l.foldl (fun s x => s + x) 0

/-- `dot_slice` (`src/lib.rs:53-64`). -/
def dot_slice {T : Type} [Mul T] [Add T] [Zero T] (a b : List T) : Option T :=
  (forPushDot a b (rustLen a b)).map listSum

/-! ## Basic lemmas about the embedding -/

theorem rustLen_eq_min {T : Type} (a b : List T) :
    rustLen a b = min a.length b.length := by
  rw [rustLen, Nat.min_def]

theorem forPushDot_eq_forPush {T : Type} [Mul T] (a b : List T) (n : Nat) :
    forPushDot a b n = forPush a b n := by
  induction n with
  | zero => rfl
  | succ k ih => rw [forPushDot, forPush, ih]

/-- After `n ≤ min (len a) (len b)` iterations the loop has built exactly
the first `n` element-wise products, and has not panicked. -/
theorem forPush_eq_take {T : Type} [Mul T] (a b : List T) (n : Nat)
    (h : n ≤ min a.length b.length) :
    forPush a b n = some ((List.zipWith (fun x y => x * y) a b).take n) := by
  induction n with
  | zero => simp [forPush]
  | succ k ih =>
    have hka : k < a.length := by omega
    have hkb : k < b.length := by omega
    have hz : (List.zipWith (fun x y : T => x * y) a b)[k]? =
        some (a[k] * b[k]) := by
      rw [List.getElem?_eq_getElem (by simp; omega)]
      simp [List.getElem_zipWith]
    rw [forPush, ih (by omega)]
    simp only [Option.bind_eq_bind, Option.some_bind,
      List.getElem?_eq_getElem hka, List.getElem?_eq_getElem hkb]
    rw [List.take_succ, hz]
    rfl

/-- `mul_slice` never panics and returns the truncated element-wise
product, i.e. `zipWith (· * ·)`. -/
theorem mul_slice_eq_zipWith {T : Type} [Mul T] (a b : List T) :
    mul_slice a b = some (List.zipWith (fun x y => x * y) a b) := by
  rw [mul_slice, rustLen_eq_min,
    forPush_eq_take a b (min a.length b.length) (Nat.le_refl _)]
  rw [List.take_of_length_le (by simp)]

/-- `dot_slice` never panics and returns the left fold of `+` over the
truncated element-wise products. -/
theorem dot_slice_eq_foldl {T : Type} [Mul T] [Add T] [Zero T]
    (a b : List T) :
    dot_slice a b =
      some ((List.zipWith (fun x y => x * y) a b).foldl (fun s x => s + x) 0) := by
  rw [dot_slice, rustLen_eq_min, forPushDot_eq_forPush,
    forPush_eq_take a b (min a.length b.length) (Nat.le_refl _)]
  rw [List.take_of_length_le (by simp)]
  rfl

/-- The list `b ++ c` behaves like `b` under `zipWith` when the first
list is at most as long as `b`. -/
theorem zipWith_append_left_of_le {α : Type} (f : α → α → α) :
    ∀ (a b c : List α), a.length ≤ b.length →
      List.zipWith f a (b ++ c) = List.zipWith f a b
  | [], _, _, _ => by simp
  | _ :: _, [], _, h => by simp at h
  | x :: a, y :: b, c, h => by
    simp only [List.cons_append, List.zipWith_cons_cons]
    rw [zipWith_append_left_of_le f a b c (by simpa using h)]

/-- Symmetric version: appending to the longer first list does not change
the `zipWith`. -/
theorem zipWith_append_right_of_le {α : Type} (f : α → α → α) :
    ∀ (a b c : List α), b.length ≤ a.length →
      List.zipWith f (a ++ c) b = List.zipWith f a b
  | _, [], _, _ => by simp
  | [], _ :: _, _, h => by simp at h
  | x :: a, y :: b, c, h => by
    simp only [List.cons_append, List.zipWith_cons_cons]
    rw [zipWith_append_right_of_le f a b c (by simpa using h)]

/-! ## The claims -/

/-- Claim C1: for every pair of sequences `a` and `b` and every index
`i < min (len a) (len b)`, the `i`-th element of the result of
`mul_slice` equals `a[i] * b[i]`. -/
theorem mul_slice_index (T : Type) [Mul T] (a b : List T) (i : Nat)
    (h : i < min a.length b.length) :
    ∃ v, mul_slice a b = some v ∧ v[i]? = some (a[i] * b[i]) := by
  refine ⟨_, mul_slice_eq_zipWith a b, ?_⟩
  rw [List.getElem?_eq_getElem (by simp; omega)]
  simp [List.getElem_zipWith]

/-- Witness for C1 at `a = [2, 3]`, `b = [5, 7, 9]`, `i = 1`. -/
theorem mul_slice_index_witness :
    ∃ v, mul_slice ([2, 3] : List Int) [5, 7, 9] = some v ∧
      v[1]? = some (([2, 3] : List Int)[1] * ([5, 7, 9] : List Int)[1]) :=
  mul_slice_index Int [2, 3] [5, 7, 9] 1 (by decide)

/-- Claim C2: the length of the sequence returned by `mul_slice` equals
`min (len a) (len b)`. -/
theorem mul_slice_length_eq_min (T : Type) [Mul T] (a b : List T) :
    (mul_slice a b).map List.length = some (min a.length b.length) := by
  rw [mul_slice_eq_zipWith]
  simp

/-- Claim C3: `dot_slice` returns the sum of the elements of the list
returned by `mul_slice` on the same inputs. -/
theorem dot_slice_eq_sum_mul_slice (T : Type) [Mul T] [Add T] [Zero T]
    (a b : List T) :
    dot_slice a b = (mul_slice a b).map listSum := by
  rw [dot_slice_eq_foldl, mul_slice_eq_zipWith]
  rfl

/-- Claim C4: `mul_slice` with an empty input on either side returns the
empty sequence, and `dot_slice` returns `0` on an empty first input and,
more generally, whenever `min (len a) (len b) = 0`. -/
theorem empty_input_cases (T : Type) [Mul T] [Add T] [Zero T]
    (a b : List T) (h : min a.length b.length = 0) :
    mul_slice ([] : List T) b = some [] ∧
    mul_slice a ([] : List T) = some [] ∧
    dot_slice ([] : List T) b = some 0 ∧
    dot_slice a b = some 0 := by
  refine ⟨?_, ?_, ?_, ?_⟩
  · rw [mul_slice_eq_zipWith]
    rfl
  · rw [mul_slice_eq_zipWith]
    simp
  · rw [dot_slice_eq_foldl]
    rfl
  · rw [dot_slice_eq_foldl]
    have hz : List.zipWith (fun x y : T => x * y) a b = [] := by
      rw [← List.length_eq_zero]
      simp [h]
    rw [hz]
    rfl

/-- Witness for C4 at `a = []`, `b = [3, 4]`. -/
theorem empty_input_cases_witness :
    mul_slice ([] : List Int) [3, 4] = some [] ∧
    mul_slice ([] : List Int) [] = some [] ∧
    dot_slice ([] : List Int) [3, 4] = some 0 ∧
    dot_slice ([] : List Int) [3, 4] = some 0 :=
  empty_input_cases Int [] [3, 4] (by decide)

/-- Claim C5: `mul_slice` and `dot_slice` are total on every pair of
inputs, also of different lengths: all index accesses are in bounds, the
panic branch (`none` in this embedding) is unreachable, and both
functions return a value. -/
theorem no_panic (T : Type) [Mul T] [Add T] [Zero T] (a b : List T) :
    (∃ v, mul_slice a b = some v) ∧ ∃ x, dot_slice a b = some x :=
  ⟨⟨_, mul_slice_eq_zipWith a b⟩, ⟨_, dot_slice_eq_foldl a b⟩⟩

/-- Claim C6: `dot_slice` accumulates the products in left-to-right index
order: it is the left fold of `+` starting at `0` over the list whose
`i`-th entry is `a[i] * b[i]`, with no reordering. -/
theorem dot_slice_left_to_right (T : Type) [Mul T] [Add T] [Zero T]
    (a b : List T) :
    dot_slice a b =
      some ((List.zipWith (fun x y => x * y) a b).foldl
        (fun s x => s + x) 0) ∧
    ∀ i, (h : i < min a.length b.length) →
      (List.zipWith (fun x y : T => x * y) a b)[i]? = some (a[i] * b[i]) := by
  refine ⟨dot_slice_eq_foldl a b, ?_⟩
  intro i h
  rw [List.getElem?_eq_getElem (by simp; omega)]
  simp [List.getElem_zipWith]

/-- Witness for C6 at `a = [2, 3]`, `b = [5, 7, 9]`, index `1`. -/
theorem dot_slice_left_to_right_witness :
    dot_slice ([2, 3] : List Int) [5, 7, 9] =
      some ((List.zipWith (fun x y => x * y) ([2, 3] : List Int) [5, 7, 9]).foldl
        (fun s x => s + x) 0) ∧
    (List.zipWith (fun x y : Int => x * y) [2, 3] [5, 7, 9])[1]? =
      some (([2, 3] : List Int)[1] * ([5, 7, 9] : List Int)[1]) :=
  ⟨(dot_slice_left_to_right Int [2, 3] [5, 7, 9]).1,
   (dot_slice_left_to_right Int [2, 3] [5, 7, 9]).2 1 (by decide)⟩

/-- Claim C7: on `a = [0, 2, 4, 6, 8]` and `b = [0, 4, 8, 12, 16]` (also
when `b` is extended with further elements, making it longer than `a`),
`mul_slice` returns `[0, 8, 32, 72, 128]` and `dot_slice` returns `240`. -/
theorem concrete_equal_and_longer :
    mul_slice ([0, 2, 4, 6, 8] : List Int) [0, 4, 8, 12, 16] =
      some [0, 8, 32, 72, 128] ∧
    dot_slice ([0, 2, 4, 6, 8] : List Int) [0, 4, 8, 12, 16] = some 240 ∧
    mul_slice ([0, 2, 4, 6, 8] : List Int) [0, 4, 8, 12, 16, 20, 24] =
      some [0, 8, 32, 72, 128] ∧
    dot_slice ([0, 2, 4, 6, 8] : List Int) [0, 4, 8, 12, 16, 20, 24] =
      some 240 := by
  exact ⟨rfl, rfl, rfl, rfl⟩

/-- Claim C8: on `a = [0, 2, 4, 6, 8]` and the shorter `b = [0, 4, 8]`,
`mul_slice` returns `[0, 8, 32]` and `dot_slice` returns `40`. -/
theorem concrete_shorter :
    mul_slice ([0, 2, 4, 6, 8] : List Int) [0, 4, 8] = some [0, 8, 32] ∧
    dot_slice ([0, 2, 4, 6, 8] : List Int) [0, 4, 8] = some 40 := by
  exact ⟨rfl, rfl⟩

/-- Claim C9: `mul_slice` and `dot_slice` are deterministic pure
functions: equal inputs give equal outputs (in this pure embedding the
inputs are values, so no call can modify them or any other state). -/
theorem pure_deterministic (T : Type) [Mul T] [Add T] [Zero T]
    (a a' b b' : List T) (h₁ : a = a') (h₂ : b = b') :
    mul_slice a b = mul_slice a' b' ∧ dot_slice a b = dot_slice a' b' := by
  subst h₁
  subst h₂
  exact ⟨rfl, rfl⟩

/-- Witness for C9 at `a = a' = [1, 2]`, `b = b' = [3]`. -/
theorem pure_deterministic_witness :
    mul_slice ([1, 2] : List Int) [3] = mul_slice [1, 2] [3] ∧
    dot_slice ([1, 2] : List Int) [3] = dot_slice [1, 2] [3] :=
  pure_deterministic Int [1, 2] [1, 2] [3] [3] rfl rfl

/-- Claim C10: the results depend only on the common part of the two
inputs: appending to the longer input (on either side) changes neither
`mul_slice` nor `dot_slice`. -/
theorem depends_only_on_common_part (T : Type) [Mul T] [Add T] [Zero T]
    (a b c : List T) :
    (a.length ≤ b.length →
      mul_slice a (b ++ c) = mul_slice a b ∧
      dot_slice a (b ++ c) = dot_slice a b) ∧
    (b.length ≤ a.length →
      mul_slice (a ++ c) b = mul_slice a b ∧
      dot_slice (a ++ c) b = dot_slice a b) := by
  constructor
  · intro h
    constructor
    · rw [mul_slice_eq_zipWith, mul_slice_eq_zipWith,
        zipWith_append_left_of_le _ a b c h]
    · rw [dot_slice_eq_foldl, dot_slice_eq_foldl,
        zipWith_append_left_of_le _ a b c h]
  · intro h
    constructor
    · rw [mul_slice_eq_zipWith, mul_slice_eq_zipWith,
        zipWith_append_right_of_le _ a b c h]
    · rw [dot_slice_eq_foldl, dot_slice_eq_foldl,
        zipWith_append_right_of_le _ a b c h]

/-- Witness for C10 at `a = [1, 2]`, `b = [3, 4]`, `c = [5]`. -/
theorem depends_only_on_common_part_witness :
    (mul_slice ([1, 2] : List Int) ([3, 4] ++ [5]) = mul_slice [1, 2] [3, 4] ∧
      dot_slice ([1, 2] : List Int) ([3, 4] ++ [5]) = dot_slice [1, 2] [3, 4]) ∧
    (mul_slice (([1, 2] : List Int) ++ [5]) [3, 4] = mul_slice [1, 2] [3, 4] ∧
      dot_slice (([1, 2] : List Int) ++ [5]) [3, 4] = dot_slice [1, 2] [3, 4]) :=
  ⟨(depends_only_on_common_part Int [1, 2] [3, 4] [5]).1 (by decide),
   (depends_only_on_common_part Int [1, 2] [3, 4] [5]).2 (by decide)⟩

end Slicenator
